import Mathlib

/-!
# Verification of the position-valuation engine of `app.py`

A shallow embedding, in Lean 4, of the computational core of the
Streamlit stock-tracker application (`src/app.py`): the metric
computation `calc_metrics`, the review generator `auto_review_text`
(trend classification, volatility label, 1–10 score), the price-history
provider wrapper `fetch_history`, the CSV export/import pipeline, and
the portfolio row-removal operation.

Modelling conventions:

* Python floats are modelled as exact rationals (`ℚ`); the engine is
  specified as exact arithmetic on exact decimal inputs.
* Fallible code is modelled with `Except`/`Option`.  `calc_metrics` and
  `auto_review_text` fail on an empty history (in the source, a pandas
  positional-indexer error at `iloc[-1]`/`iloc[0]`); this unique failure
  is represented by the error value `CalcError.invalidHistory`.
* pandas `Series.std()` (with its default `ddof=1`) of fewer than two
  data points is `NaN`; this is modelled by an `Option`-valued variance,
  `none` standing for `NaN`.  A Python comparison `NaN > 2` is `False`.
* `pandas.Series.std` returns the square root of the sample variance.
  The source compares `std * 100 > 2`; since `std = √v ≥ 0` this holds
  iff `v * 10000 > 4`, which is the exact rational comparison used here
  (square roots of rationals are irrational in general, the squared
  comparison avoids them with no change of meaning).
-/

namespace ComradeStocks

/-- A row of the price-history frame returned by `fetch_history`:
a `date` (an abstract day number) and a closing price `close`. -/
structure PriceSample where
  date : ℕ
  close : ℚ
  deriving Repr, DecidableEq

/-- The closing-price column `hist["close"]` of a history frame. -/
def closes (hist : List PriceSample) : List ℚ :=
  hist.map (·.close)

/-- The result record of `calc_metrics`:
`(current_price, shares, current_value, profit, roi)`. -/
structure Metrics where
  current_price : ℚ
  shares : ℚ
  current_value : ℚ
  profit : ℚ
  roi : ℚ
  deriving Repr, DecidableEq

/-- The single engine failure: an operation applied to a history that is
too short.  In the source this failure surfaces as a pandas positional
indexing error on the empty frame; the specification names it
`InvalidHistoryError`. -/
inductive CalcError where
  | invalidHistory
  deriving Repr, DecidableEq

/-- `calc_metrics(hist, invested_price, invested_amount)` of `app.py`:

```python
current_price = float(hist["close"].iloc[-1])
shares = invested_amount / invested_price if invested_price != 0 else 0
current_value = shares * current_price
profit = current_value - invested_amount
roi = (profit / invested_amount) * 100 if invested_amount != 0 else 0
return current_price, shares, current_value, profit, roi
```

`hist["close"].iloc[-1]` fails on an empty frame (modelled by the
`none` branch); both divisions are guarded. -/
def calc_metrics (hist : List PriceSample) (invested_price invested_amount : ℚ) :
    Except CalcError Metrics :=
  match (closes hist).getLast? with
  | none => .error .invalidHistory
  | some c =>
    let current_price := c
    let shares := if invested_price ≠ 0 then invested_amount / invested_price else 0
    let current_value := shares * current_price
    let profit := current_value - invested_amount
    let roi := if invested_amount ≠ 0 then (profit / invested_amount) * 100 else 0
    .ok ⟨current_price, shares, current_value, profit, roi⟩

/-- `hist["close"].pct_change()` of pandas, with the leading `NaN`
dropped (it is skipped by every later reduction): the list of
period-over-period fractional changes of consecutive closes. -/
def pct_change (cs : List ℚ) : List ℚ :=
  List.zipWith (fun prev next => (next - prev) / prev) cs cs.tail

/-- The sample variance (`ddof = 1`, the pandas `Series.std` default,
squared) of a list of data points: `none` models the `NaN` that pandas
produces for fewer than two points. -/
def sampleVar (xs : List ℚ) : Option ℚ :=
  if 2 ≤ xs.length then
    some (((xs.map (fun x => (x - xs.sum / (xs.length : ℚ)) ^ 2)).sum) /
      ((xs.length : ℚ) - 1))
  else none

/-- The volatility comparison `hist["close"].pct_change().std() * 100 > 2`
of `auto_review_text`.  With `v` the sample variance of the fractional
changes, `√v * 100 > 2 ↔ v * 10000 > 4`; a `NaN` standard deviation
(fewer than two changes) compares `False` in Python. -/
def volHigh (cs : List ℚ) : Bool :=
  match sampleVar (pct_change cs) with
  | none => false
  | some v => decide (v * 10000 > 4)

/-- The trend branch of `auto_review_text`, verbatim from the source
(first match wins):

```python
if pct > 8: trend = "forte alta"
elif pct > 2: trend = "alta"
elif pct < -8: trend = "forte queda"
elif pct < -2: trend = "queda"
else: trend = "estável"
``` -/
def trend_label (pct : ℚ) : String :=
  if pct > 8 then "forte alta"
  else if pct > 2 then "alta"
  else if pct < -8 then "forte queda"
  else if pct < -2 then "queda"
  else "estável"

/-- The score branch of `auto_review_text` ("stepped" policy), verbatim
from the source. -/
def score_from_roi (roi : ℚ) : ℕ :=
  if roi ≥ 30 then 10
  else if roi ≥ 15 then 9
  else if roi ≥ 10 then 8
  else if roi ≥ 5 then 7
  else if roi ≥ 0 then 6
  else if roi ≥ -5 then 5
  else if roi ≥ -10 then 4
  else if roi ≥ -20 then 3
  else 1

/-- The data `auto_review_text` computes and interpolates into its fixed
Portuguese sentence template: the period change percentage, the
volatility label, the trend label, and the score.  (The source returns
the formatted sentence together with the score; the sentence is the
fixed template filled with exactly these four values, `pct` printed at
two decimals.) -/
structure Review where
  pct : ℚ
  vol_text : String
  trend : String
  score : ℕ
  deriving Repr, DecidableEq

/-- `auto_review_text(hist, roi)` of `app.py`:

```python
start = hist["close"].iloc[0]
end = hist["close"].iloc[-1]
pct = (end - start) / start * 100
vol = hist["close"].pct_change().std() * 100
vol_text = "alta volatilidade" if vol > 2 else "baixa volatilidade"
... trend thresholds ... score table ...
```

`iloc[0]`/`iloc[-1]` fail on an empty frame (the `.error` branch); a
single-sample frame does NOT fail (`iloc[0]` and `iloc[-1]` both hit the
one row).  In the source `start == 0` produces a non-finite float `pct`
rather than an error; here the total rational division makes `pct`
junk (0) in that case, and no theorem below relies on it. -/
def auto_review_text (hist : List PriceSample) (roi : ℚ) :
    Except CalcError Review :=
  match (closes hist).head?, (closes hist).getLast? with
  | some s, some e =>
    let pct := (e - s) / s * 100
    let vt := if volHigh (closes hist) then "alta volatilidade"
              else "baixa volatilidade"
    .ok ⟨pct, vt, trend_label pct, score_from_roi roi⟩
  | _, _ => .error .invalidHistory

/-- Rank of a trend label in the order
forte queda < queda < estável < alta < forte alta. -/
def trend_rank (s : String) : ℕ :=
  if s = "forte queda" then 0
  else if s = "queda" then 1
  else if s = "estável" then 2
  else if s = "alta" then 3
  else if s = "forte alta" then 4
  else 0

/-! ### The price-history provider wrapper `fetch_history`

`fetch_history` calls `yf.Ticker(ticker).history(period)` inside a
blanket `try`/`except`.  The external call is modelled by its three
observable outcomes: it raised, it returned no data (`None`), or it
returned a data frame.  A frame is its date index (reset into the
`date` column) together with its named data columns (lower-cased by
`hist.columns.str.lower()` before the `"close"` lookup). -/

/-- A raw pandas frame as returned by the provider: the date index
(one entry per row) and the named data columns. -/
structure RawFrame where
  index : List ℕ
  cols : List (List Char × List ℚ)
  deriving Repr

/-- The observable outcomes of the external `yf.Ticker(...).history(...)`
call. -/
inductive ProviderResponse where
  | exn
  | noData
  | frame (f : RawFrame)

/-- Column lookup after `hist.columns.str.lower()` (column names as
character lists, lower-cased per character). -/
def lookupCol (f : RawFrame) (name : List Char) : Option (List ℚ) :=
  (f.cols.map (fun c => (c.1.map Char.toLower, c.2))).lookup name

/-- `fetch_history` of `app.py`: `None` when the call raised, returned
`None`, returned an empty frame, or the frame has no `close` column;
otherwise the `[["date", "close"]]` selection — the dates (the reset
index) with the close column. -/
def fetch_history (r : ProviderResponse) : Option (List ℕ × List ℚ) :=
  match r with
  | .exn => none
  | .noData => none
  | .frame f =>
    if f.index.isEmpty then none
    else
      match lookupCol f "close".toList with
      | none => none
      | some cs => some (f.index, cs)

/-! ### The persisted portfolio and its CSV codec

The persisted schema is `ticker, invest_date, price, amount`
(`local_load_portfolio` / `local_save_portfolio` and the Export/Import
page).  The export is `df.to_csv(index=False)` and the import is
`pd.read_csv(..., parse_dates=["invest_date"])`; both are modelled
character-exactly for valid rows: a header line and one comma-joined
line per row, joined by newlines.  (The source's `to_csv` additionally
emits one trailing newline, which `read_csv` skips as a blank line; the
model omits it.)  Cell values: the ticker is written verbatim (pandas
only quotes cells containing separator characters, and a valid ticker
contains none), the date is written `YYYY-MM-DD` (`strftime("%Y-%m-%d")`
on entry, zero-padded), and prices/amounts are written as exact
non-negative decimals with a decimal point, as pandas writes the float
repr.  Python floats are modelled as exact decimal rationals
throughout. -/

/-- The decimal digit character of `n < 10`. -/
def digitChar (n : ℕ) : Char := Char.ofNat (48 + n)

/-- The numeric value of a decimal digit character. -/
def charToDigit (c : Char) : Option ℕ :=
  if 48 ≤ c.toNat ∧ c.toNat ≤ 57 then some (c.toNat - 48) else none

/-- Base-10 rendering of a natural number, most significant digit
first. -/
def renderNat (n : ℕ) : List Char :=
  if _h : n < 10 then [digitChar n]
  else renderNat (n / 10) ++ [digitChar (n % 10)]
  decreasing_by exact Nat.div_lt_self (by omega) (by omega)

/-- Base-10 rendering of `n`, left-padded with `'0'` to `e` digits. -/
def renderNatPad (e n : ℕ) : List Char :=
  List.replicate (e - (renderNat n).length) '0' ++ renderNat n

/-- One step of decimal parsing. -/
def parseStep (acc : Option ℕ) (c : Char) : Option ℕ :=
  acc.bind fun a => (charToDigit c).map fun d => a * 10 + d

/-- Parse a non-empty all-digit string as a natural number. -/
def parseNat? (cs : List Char) : Option ℕ :=
  if cs.isEmpty then none else cs.foldl parseStep (some 0)

/-- The number of fractional digits used to write the decimal `q`: the
least `e` with `q.den ∣ 10 ^ e`, searched up to `q.den` (for a decimal
denominator `2^a·5^b` the bound always suffices). -/
def decExp (q : ℚ) : ℕ :=
  (((List.range (q.den + 1)).find? (fun e => 10 ^ e % q.den == 0)).getD q.den)

/-- Write the non-negative decimal `q` as `⟨int digits⟩.⟨frac digits⟩`
with at least one fractional digit (as the float repr does). -/
def renderMoney (q : ℚ) : List Char :=
  let e := max (decExp q) 1
  let n := q.num.toNat * (10 ^ e / q.den)
  renderNat (n / 10 ^ e) ++ '.' :: renderNatPad e (n % 10 ^ e)

/-- Parse a decimal numeral, with or without a fractional part. -/
def parseMoney (cs : List Char) : Option ℚ :=
  match cs.dropWhile (· ≠ '.') with
  | [] => (parseNat? cs).map (fun i => (i : ℚ))
  | _ :: fracs =>
    match parseNat? (cs.takeWhile (· ≠ '.')), parseNat? fracs with
    | some i, some f => some ((i : ℚ) + (f : ℚ) / 10 ^ fracs.length)
    | _, _ => none

/-- A calendar date as persisted: `YYYY-MM-DD`. -/
structure DateYMD where
  year : ℕ
  month : ℕ
  day : ℕ
  deriving Repr, DecidableEq

/-- `strftime("%Y-%m-%d")`: zero-padded, dash-separated. -/
def renderDate (d : DateYMD) : List Char :=
  List.intercalate ['-'] [renderNatPad 4 d.year, renderNatPad 2 d.month,
    renderNatPad 2 d.day]

/-- Parse a `YYYY-MM-DD` cell (what `parse_dates=["invest_date"]`
produces for the persisted format). -/
def parseDate (cs : List Char) : Option DateYMD :=
  match cs.splitOn '-' with
  | [ys, ms, ds] =>
    match parseNat? ys, parseNat? ms, parseNat? ds with
    | some y, some m, some d => some ⟨y, m, d⟩
    | _, _, _ => none
  | _ => none

/-- A persisted position: one row of the
`ticker, invest_date, price, amount` table. -/
structure Position where
  ticker : List Char
  invest_date : DateYMD
  price : ℚ
  amount : ℚ
  deriving Repr, DecidableEq

/-- A row with no invalid field: the ticker is non-empty and free of
CSV metacharacters (so pandas writes it unquoted and reads it back
verbatim), and price and amount are non-negative decimals (finite
decimal expansions, `den ∣ 10^den` being the bound-free way to say
`den = 2^a·5^b`). -/
def ValidPos (p : Position) : Prop :=
  p.ticker ≠ [] ∧
  (∀ c ∈ p.ticker, c ≠ ',' ∧ c ≠ '\n' ∧ c ≠ '"' ∧ c ≠ '\r') ∧
  0 ≤ p.price ∧ (p.price.den : ℕ) ∣ 10 ^ p.price.den ∧
  0 ≤ p.amount ∧ (p.amount.den : ℕ) ∣ 10 ^ p.amount.den

instance (p : Position) : Decidable (ValidPos p) := by
  unfold ValidPos
  infer_instance

/-- The four cells of a row, in schema order. -/
def posToCells (p : Position) : List (List Char) :=
  [p.ticker, renderDate p.invest_date, renderMoney p.price,
    renderMoney p.amount]

/-- Read a row back from its four cells. -/
def cellsToPos (cells : List (List Char)) : Option Position :=
  match cells with
  | [t, d, pr, am] =>
    match parseDate d, parseMoney pr, parseMoney am with
    | some dd, some price, some amount => some ⟨t, dd, price, amount⟩
    | _, _, _ => none
  | _ => none

/-- The canonical header line `ticker,invest_date,price,amount`. -/
def headerLine : List Char :=
  List.intercalate [','] ["ticker".toList, "invest_date".toList,
    "price".toList, "amount".toList]

/-- `df_to_csv_bytes` of `app.py` (`df.to_csv(index=False)`): the
header line followed by one comma-joined line per row, newline-joined. -/
def df_to_csv_bytes (df : List Position) : List Char :=
  List.intercalate ['\n']
    (headerLine :: df.map (fun p => List.intercalate [','] (posToCells p)))

/-- `pd.read_csv(..., parse_dates=["invest_date"])` restricted to the
canonical schema, plus the Export/Import page's column check: the first
line must be the canonical header, every further line is a row. -/
def read_csv (cs : List Char) : Option (List Position) :=
  match cs.splitOn '\n' with
  | [] => none
  | hdr :: body =>
    if hdr = headerLine then
      body.mapM (fun line => cellsToPos (line.splitOn ','))
    else none

/-- `local_save_portfolio` of `app.py`: `df.to_csv(DATA_FILE,
index=False)` — the persisted file contents. -/
def local_save_portfolio (df : List Position) : List Char :=
  df_to_csv_bytes df

/-- `local_load_portfolio` of `app.py`: parse the persisted file,
falling back to the empty table when parsing fails (the source's
blanket `except` returns an empty frame). -/
def local_load_portfolio (file : List Char) : List Position :=
  (read_csv file).getD []

/-- The Portfólio page's removal:
`portfolio_df.drop(index=idx).reset_index(drop=True)`.  The frame
carries a `RangeIndex` (both `local_load_portfolio` and
`pd.concat(..., ignore_index=True)` produce one), so the label `idx`
is the position `idx`. -/
def drop_row (df : List Position) (idx : ℕ) : List Position :=
  df.take idx ++ df.drop (idx + 1)

/-! ## Helper lemmas -/

/-- `closes` is `[]` exactly on the empty frame. -/
theorem closes_eq_nil {hist : List PriceSample} : closes hist = [] ↔ hist = [] := by
  simp [closes]

/-- A nonempty frame has a last close. -/
theorem closes_getLast?_isSome {hist : List PriceSample} (h : hist ≠ []) :
    ∃ c, (closes hist).getLast? = some c := by
  cases hc : (closes hist).getLast? with
  | none => exact absurd (closes_eq_nil.mp (List.getLast?_eq_none_iff.mp hc)) h
  | some c => exact ⟨c, rfl⟩

/-! ## C1: exactness of `calc_metrics` -/

/-- C1.  For every non-empty price history and every `entryPrice > 0`,
`entryAmount > 0`, `calc_metrics` returns `currentPrice` equal to the
close of the last sample, `shares = entryAmount/entryPrice`,
`currentValue = shares*currentPrice`, `profit = currentValue-entryAmount`
and `roiPercent = profit/entryAmount*100`, exactly; equivalently
`profit = entryAmount*(currentPrice/entryPrice - 1)`. -/
theorem C1_calc_metrics_exact (hist : List PriceSample) (p a : ℚ)
    (hne : hist ≠ []) (hp : 0 < p) (ha : 0 < a) :
    ∃ m, calc_metrics hist p a = .ok m ∧
      (closes hist).getLast? = some m.current_price ∧
      m.shares = a / p ∧
      m.current_value = m.shares * m.current_price ∧
      m.profit = m.current_value - a ∧
      m.roi = m.profit / a * 100 ∧
      m.profit = a * (m.current_price / p - 1) := by
  obtain ⟨c, hc⟩ := closes_getLast?_isSome hne
  refine ⟨⟨c, a / p, a / p * c, a / p * c - a, (a / p * c - a) / a * 100⟩, ?_, hc, rfl,
    rfl, rfl, rfl, ?_⟩
  · simp only [calc_metrics, hc]
    simp [hp.ne', ha.ne']
  · field_simp
    ring

/-- C1 witness: the spec's scenario `history=[(d0,100),(d1,110)]`,
`entryPrice=100`, `entryAmount=1000`. -/
theorem C1_witness :
    ∃ m, calc_metrics [⟨0, 100⟩, ⟨1, 110⟩] 100 1000 = .ok m ∧
      (closes [⟨0, 100⟩, ⟨1, 110⟩]).getLast? = some m.current_price ∧
      m.shares = 1000 / 100 ∧
      m.current_value = m.shares * m.current_price ∧
      m.profit = m.current_value - 1000 ∧
      m.roi = m.profit / 1000 * 100 ∧
      m.profit = 1000 * (m.current_price / 100 - 1) :=
  C1_calc_metrics_exact [⟨0, 100⟩, ⟨1, 110⟩] 100 1000 (by simp)
    (by norm_num) (by norm_num)

/-! ## C4: `calc_metrics` fails exactly on the empty history -/

/-- C4.  `calc_metrics` fails with `InvalidHistoryError` when and only
when the history is empty; on every non-empty history (any entry price
and amount, in particular all nonnegative ones) it returns a result and
raises no error. -/
theorem C4_calc_metrics_error_iff_empty (hist : List PriceSample) (p a : ℚ) :
    (calc_metrics hist p a = .error .invalidHistory ↔ hist = []) ∧
    ((∃ m, calc_metrics hist p a = .ok m) ↔ hist ≠ []) := by
  constructor
  · constructor
    · intro herr
      by_contra hne
      obtain ⟨c, hc⟩ := closes_getLast?_isSome hne
      simp [calc_metrics, hc] at herr
    · rintro rfl
      simp [calc_metrics, closes]
  · constructor
    · rintro ⟨m, hm⟩ rfl
      simp [calc_metrics, closes] at hm
    · intro hne
      obtain ⟨c, hc⟩ := closes_getLast?_isSome hne
      refine ⟨⟨c, if p ≠ 0 then a / p else 0, (if p ≠ 0 then a / p else 0) * c,
        (if p ≠ 0 then a / p else 0) * c - a,
        if a ≠ 0 then ((if p ≠ 0 then a / p else 0) * c - a) / a * 100 else 0⟩, ?_⟩
      simp only [calc_metrics, hc]

/-! ## C5: zero guards make `calc_metrics` total on its domain -/

/-- C5.  On every non-empty history: with `entryPrice = 0` the result is
`shares = 0`, `currentValue = 0`, `profit = -entryAmount` and no error;
with `entryAmount = 0` the result has `roiPercent = 0` and no error —
both divisions are guarded. -/
theorem C5_calc_metrics_zero_guards (hist : List PriceSample) (p a : ℚ)
    (hne : hist ≠ []) :
    (∃ m, calc_metrics hist 0 a = .ok m ∧
      m.shares = 0 ∧ m.current_value = 0 ∧ m.profit = -a) ∧
    (∃ m, calc_metrics hist p 0 = .ok m ∧ m.roi = 0) := by
  obtain ⟨c, hc⟩ := closes_getLast?_isSome hne
  constructor
  · refine ⟨⟨c, 0, 0, -a, if a ≠ 0 then -a / a * 100 else 0⟩, ?_, rfl, rfl, rfl⟩
    simp only [calc_metrics, hc]
    simp only [ne_eq, not_true_eq_false, if_false, zero_mul, zero_sub]
  · by_cases hp : p = 0
    · subst hp
      refine ⟨⟨c, 0, 0, 0, 0⟩, ?_, rfl⟩
      simp [calc_metrics, hc]
    · refine ⟨⟨c, 0 / p, 0 / p * c, 0 / p * c - 0, 0⟩, ?_, rfl⟩
      simp [calc_metrics, hc, hp]

/-- C5 witness: history `[(0,50)]`, `entryPrice = 7`, `entryAmount = 3`. -/
theorem C5_witness :
    (∃ m, calc_metrics [⟨0, 50⟩] 0 3 = .ok m ∧
      m.shares = 0 ∧ m.current_value = 0 ∧ m.profit = -3) ∧
    (∃ m, calc_metrics [⟨0, 50⟩] 7 0 = .ok m ∧ m.roi = 0) :=
  C5_calc_metrics_zero_guards [⟨0, 50⟩] 7 3 (by simp)

/-! ## C2: the "stepped" score table -/

set_option maxHeartbeats 1600000 in
/-- The stepped score is non-decreasing in `roiPercent`. -/
theorem score_from_roi_mono {r s : ℚ} (h : r ≤ s) :
    score_from_roi r ≤ score_from_roi s := by
  unfold score_from_roi
  split_ifs <;> first | omega | linarith

set_option maxHeartbeats 1600000 in
/-- C2.  The stepped score maps `roiPercent` by the exact table
`roi≥30→10, ≥15→9, ≥10→8, ≥5→7, ≥0→6, ≥-5→5, ≥-10→4, ≥-20→3, else→1`;
it is non-decreasing, satisfies the boundary values `30→10`,
`29.99→9`, `-20→3`, `-20.01→1`, and no input maps to 2. -/
theorem C2_score_stepped (r s : ℚ) :
    (r ≤ s → score_from_roi r ≤ score_from_roi s) ∧
    (30 ≤ r → score_from_roi r = 10) ∧
    (15 ≤ r → r < 30 → score_from_roi r = 9) ∧
    (10 ≤ r → r < 15 → score_from_roi r = 8) ∧
    (5 ≤ r → r < 10 → score_from_roi r = 7) ∧
    (0 ≤ r → r < 5 → score_from_roi r = 6) ∧
    (-5 ≤ r → r < 0 → score_from_roi r = 5) ∧
    (-10 ≤ r → r < -5 → score_from_roi r = 4) ∧
    (-20 ≤ r → r < -10 → score_from_roi r = 3) ∧
    (r < -20 → score_from_roi r = 1) ∧
    score_from_roi 30 = 10 ∧ score_from_roi (2999 / 100) = 9 ∧
    score_from_roi (-20) = 3 ∧ score_from_roi (-2001 / 100) = 1 ∧
    score_from_roi r ≠ 2 := by
  refine ⟨fun h => score_from_roi_mono h, ?_, ?_, ?_, ?_, ?_, ?_, ?_, ?_, ?_,
    by norm_num [score_from_roi], by norm_num [score_from_roi],
    by norm_num [score_from_roi], by norm_num [score_from_roi], ?_⟩ <;>
    · intros
      unfold score_from_roi
      split_ifs <;> first | omega | linarith

/-- C2 witness: the monotonicity part instantiated at `-50 ≤ 10`,
and the interval parts at `10`. -/
theorem C2_witness :
    (score_from_roi (-50) ≤ score_from_roi 10) ∧ score_from_roi 10 = 8 :=
  ⟨(C2_score_stepped (-50) 10).1 (by norm_num),
   (C2_score_stepped 10 10).2.2.2.1 (by norm_num) (by norm_num)⟩

/-! ## C3: the trend classifier -/

/-- The trend label's rank is non-decreasing in `periodChangePercent`. -/
theorem trend_label_rank_mono {p q : ℚ} (h : p ≤ q) :
    trend_rank (trend_label p) ≤ trend_rank (trend_label q) := by
  unfold trend_label
  split_ifs <;> first | decide | (exfalso; linarith)

/-- C3.  The trend label is assigned by the fixed thresholds on
`periodChangePercent` in the source's exact order (`> 8` strong-up,
`> 2` up, `< -8` strong-down, `< -2` down, otherwise stable — first
match wins), which partitions the line into
`(-∞,-8) ↦ strong-down, [-8,-2) ↦ down, [-2,2] ↦ stable, (2,8] ↦ up,
(8,∞) ↦ strong-up`; consequently increasing `periodChangePercent`
never decreases the label's rank in
strong-down < down < stable < up < strong-up. -/
theorem C3_trend_thresholds (p q : ℚ) :
    (8 < p → trend_label p = "forte alta") ∧
    (2 < p → p ≤ 8 → trend_label p = "alta") ∧
    (p < -8 → trend_label p = "forte queda") ∧
    (-8 ≤ p → p < -2 → trend_label p = "queda") ∧
    (-2 ≤ p → p ≤ 2 → trend_label p = "estável") ∧
    (p ≤ q → trend_rank (trend_label p) ≤ trend_rank (trend_label q)) := by
  refine ⟨?_, ?_, ?_, ?_, ?_, fun h => trend_label_rank_mono h⟩ <;>
    · intros
      unfold trend_label
      split_ifs <;> first | rfl | linarith

/-- C3 witness: the interval parts at `-3` and the monotonicity part at
`-3 ≤ 12`. -/
theorem C3_witness :
    trend_label (-3) = "queda" ∧
    trend_rank (trend_label (-3)) ≤ trend_rank (trend_label 12) :=
  ⟨(C3_trend_thresholds (-3) 12).2.2.2.1 (by norm_num) (by norm_num),
   (C3_trend_thresholds (-3) 12).2.2.2.2.2 (by norm_num)⟩

/-! ## C6: failure conditions of the trend computation -/

/-- The head close of a non-empty frame. -/
theorem closes_head_cons (s : PriceSample) (rest : List PriceSample) :
    (closes (s :: rest)).head? = some s.close := by
  simp [closes]

/-- C6 counterexample.  The claim says the trend computation fails with
`InvalidHistoryError` when the history has fewer than 2 samples; in the
source a single-sample history does not fail: `iloc[0]` and `iloc[-1]`
both address the one row, the period change is `0`, the trend is
"estável" and the volatility label "baixa volatilidade". -/
theorem C6_counterexample :
    auto_review_text [⟨0, 50⟩] 0 =
      .ok ⟨0, "baixa volatilidade", "estável", 6⟩ ∧
    ([(⟨0, 50⟩ : PriceSample)]).length < 2 := by
  refine ⟨?_, by norm_num⟩
  norm_num [auto_review_text, closes, volHigh, pct_change, sampleVar,
    trend_label, score_from_roi]

/-- C6 amended.  `auto_review_text` computes
`periodChangePercent = (lastClose - firstClose)/firstClose * 100` from
the first and last sample closes, and it fails with
`InvalidHistoryError` exactly when the history is empty: a single-sample
history and a history with `firstClose = 0` do not fail (in the source
the latter silently yields a non-finite `pct`). -/
theorem C6_pct_and_error (roi : ℚ) :
    (∀ hist, auto_review_text hist roi = .error .invalidHistory ↔ hist = []) ∧
    (∀ (s : PriceSample) (rest : List PriceSample), s.close ≠ 0 →
      ∃ rv e, (closes (s :: rest)).getLast? = some e ∧
        auto_review_text (s :: rest) roi = .ok rv ∧
        rv.pct = (e - s.close) / s.close * 100 ∧
        rv.trend = trend_label rv.pct ∧
        rv.score = score_from_roi roi) := by
  have key : ∀ (s : PriceSample) (rest : List PriceSample),
      ∃ rv e, (closes (s :: rest)).getLast? = some e ∧
        auto_review_text (s :: rest) roi = .ok rv ∧
        rv.pct = (e - s.close) / s.close * 100 ∧
        rv.trend = trend_label rv.pct ∧
        rv.score = score_from_roi roi := by
    intro s rest
    obtain ⟨e, he⟩ := @closes_getLast?_isSome (s :: rest) (by simp)
    refine ⟨⟨(e - s.close) / s.close * 100,
      if volHigh (closes (s :: rest)) then "alta volatilidade"
        else "baixa volatilidade",
      trend_label ((e - s.close) / s.close * 100), score_from_roi roi⟩,
      e, he, ?_, rfl, rfl, rfl⟩
    simp only [auto_review_text, closes_head_cons, he]
  constructor
  · intro hist
    constructor
    · intro herr
      cases hist with
      | nil => rfl
      | cons s rest =>
        obtain ⟨rv, e, _, hok, _⟩ := key s rest
        rw [hok] at herr
        exact absurd herr (by simp)
    · rintro rfl
      simp [auto_review_text, closes]
  · intro s rest _
    exact key s rest

/-- C6 witness: the amended theorem at `history=[(0,100),(1,110)]`,
`roi = 10`. -/
theorem C6_witness :
    ∃ rv e,
      (closes [⟨0, 100⟩, ⟨1, 110⟩]).getLast? = some e ∧
      auto_review_text [⟨0, 100⟩, ⟨1, 110⟩] 10 = .ok rv ∧
      rv.pct = (e - (⟨0, 100⟩ : PriceSample).close) /
        (⟨0, 100⟩ : PriceSample).close * 100 ∧
      rv.trend = trend_label rv.pct ∧
      rv.score = score_from_roi 10 :=
  (C6_pct_and_error 10).2 ⟨0, 100⟩ [⟨1, 110⟩] (by norm_num)

/-! ## C7: the volatility label -/

/-- With exactly two samples there is a single pairwise change, and the
sample variance (pandas `ddof=1`) of one data point is `NaN` (`none`). -/
theorem sampleVar_pair (a b : ℚ) :
    sampleVar (pct_change [a, b]) = none := by
  simp [pct_change, sampleVar]

/-- C7 counterexample.  The claim says `volatilityPercent` is `0` for
every history with exactly 2 samples; in the source it is `NaN`
(pandas' sample standard deviation of the single pairwise change, with
its default `ddof=1`), modelled as `none` — not `0`. -/
theorem C7_counterexample :
    sampleVar (pct_change [(50 : ℚ), 50]) = none ∧
    sampleVar (pct_change [(50 : ℚ), 50]) ≠ some 0 := by
  refine ⟨sampleVar_pair 50 50, ?_⟩
  rw [sampleVar_pair 50 50]
  simp

/-- C7 amended.  The volatility label is "alta volatilidade" iff the
sample variance `v` of the period-over-period fractional changes is
defined and `√v·100 > 2` (stated exactly as `v·10000 > 4`), and "baixa
volatilidade" otherwise — in particular whenever the deviation is `NaN`,
which is the case for every history with exactly 2 samples (pandas
`ddof=1`); there the label is "baixa volatilidade", and for the history
`[(d0,50),(d1,50)]` the result is `periodChangePercent = 0`, trend
"estável", volatility label "baixa volatilidade". -/
theorem C7_volatility_label (cs : List ℚ) (x y : PriceSample) (roi : ℚ) :
    (volHigh cs = true ↔
      ∃ v, sampleVar (pct_change cs) = some v ∧ v * 10000 > 4) ∧
    sampleVar (pct_change [x.close, y.close]) = none ∧
    (∃ rv, auto_review_text [x, y] roi = .ok rv ∧
      rv.vol_text = "baixa volatilidade") ∧
    auto_review_text [⟨0, 50⟩, ⟨1, 50⟩] 0 =
      .ok ⟨0, "baixa volatilidade", "estável", 6⟩ := by
  refine ⟨?_, sampleVar_pair x.close y.close, ?_, ?_⟩
  · unfold volHigh
    cases hv : sampleVar (pct_change cs) with
    | none => simp [hv]
    | some v => simp [hv]
  · have hvol : volHigh [x.close, y.close] = false := by
      unfold volHigh
      rw [sampleVar_pair x.close y.close]
    refine ⟨⟨(y.close - x.close) / x.close * 100, "baixa volatilidade",
      trend_label ((y.close - x.close) / x.close * 100),
      score_from_roi roi⟩, ?_, rfl⟩
    simp only [auto_review_text, closes, List.map_cons, List.map_nil,
      List.head?_cons, List.getLast?_cons_cons, List.getLast?_singleton, hvol]
    simp
  · norm_num [auto_review_text, closes, volHigh, pct_change, sampleVar,
      trend_label, score_from_roi]

/-! ## CSV codec, provider and store theorems -/

theorem digitChar_toNat {d : ℕ} (hd : d < 10) : (digitChar d).toNat = 48 + d := by
  interval_cases d <;> rfl

theorem charToDigit_digitChar {d : ℕ} (hd : d < 10) :
    charToDigit (digitChar d) = some d := by
  simp only [charToDigit, digitChar_toNat hd]
  rw [if_pos (by omega)]
  simp

theorem renderNat_ne_nil (n : ℕ) : renderNat n ≠ [] := by
  rw [renderNat]
  split <;> simp

theorem renderNat_digits (n : ℕ) : ∀ c ∈ renderNat n, 48 ≤ c.toNat ∧ c.toNat ≤ 57 := by
  induction n using Nat.strong_induction_on with
  | _ n ih =>
    intro c hc
    rw [renderNat] at hc
    split at hc
    · next h =>
      simp only [List.mem_singleton] at hc
      subst hc
      rw [digitChar_toNat h]
      omega
    · next h =>
      rcases List.mem_append.mp hc with h1 | h2
      · exact ih (n / 10) (Nat.div_lt_self (by omega) (by omega)) c h1
      · simp only [List.mem_singleton] at h2
        subst h2
        rw [digitChar_toNat (Nat.mod_lt _ (by omega))]
        have : n % 10 < 10 := Nat.mod_lt n (by omega)
        omega

theorem foldl_parseStep_renderNat (n : ℕ) :
    ∀ a, List.foldl parseStep (some a) (renderNat n) =
      some (a * 10 ^ (renderNat n).length + n) := by
  induction n using Nat.strong_induction_on with
  | _ n ih =>
    intro a
    rw [renderNat]
    split
    · next h =>
      simp [parseStep, charToDigit_digitChar h]
    · next h =>
      rw [List.foldl_append, ih (n / 10) (Nat.div_lt_self (by omega) (by omega)) a]
      have hm : n % 10 < 10 := Nat.mod_lt _ (by omega)
      simp only [List.foldl_cons, List.foldl_nil, parseStep,
        charToDigit_digitChar hm, Option.some_bind, Option.map_some',
        List.length_append, List.length_singleton]
      have : (a * 10 ^ (renderNat (n / 10)).length + n / 10) * 10 + n % 10 =
          a * 10 ^ ((renderNat (n / 10)).length + 1) + n := by
        rw [pow_succ]
        have := Nat.div_add_mod n 10
        ring_nf
        omega
      exact congrArg some this

theorem parseNat?_renderNat (n : ℕ) : parseNat? (renderNat n) = some n := by
  rw [parseNat?, if_neg (by simp [renderNat_ne_nil]), foldl_parseStep_renderNat]
  simp

theorem foldl_parseStep_zeros (k : ℕ) :
    List.foldl parseStep (some 0) (List.replicate k '0') = some 0 := by
  induction k with
  | zero => rfl
  | succ k ih => simpa [List.replicate_succ, parseStep, charToDigit] using ih

theorem parseNat?_renderNatPad (e n : ℕ) :
    parseNat? (renderNatPad e n) = some n := by
  rw [renderNatPad, parseNat?,
    if_neg (by simp [renderNat_ne_nil]), List.foldl_append,
    foldl_parseStep_zeros, foldl_parseStep_renderNat]
  simp

theorem renderNat_length_le {n e : ℕ} (he : 1 ≤ e) (h : n < 10 ^ e) :
    (renderNat n).length ≤ e := by
  induction e generalizing n with
  | zero => omega
  | succ e ih =>
    rw [renderNat]
    split
    · simp
    · next hn =>
      rcases Nat.eq_zero_or_pos e with rfl | he'
      · simp at h
        omega
      · have : n / 10 < 10 ^ e := by
          rw [Nat.div_lt_iff_lt_mul (by omega)]
          calc n < 10 ^ (e + 1) := h
          _ = 10 ^ e * 10 := by rw [pow_succ]
        simpa using Nat.add_le_add_right (ih he' this) 1

theorem renderNatPad_length {e n : ℕ} (he : 1 ≤ e) (h : n < 10 ^ e) :
    (renderNatPad e n).length = e := by
  have := renderNat_length_le he h
  simp [renderNatPad]
  omega

theorem renderNatPad_digits (e n : ℕ) :
    ∀ c ∈ renderNatPad e n, 48 ≤ c.toNat ∧ c.toNat ≤ 57 := by
  intro c hc
  rcases List.mem_append.mp hc with h1 | h2
  · rw [List.eq_of_mem_replicate h1]
    decide
  · exact renderNat_digits n c h2

theorem decExp_spec {q : ℚ} (h : (q.den : ℕ) ∣ 10 ^ q.den) :
    (q.den : ℕ) ∣ 10 ^ decExp q := by
  unfold decExp
  have hsome :
      ((List.range (q.den + 1)).find? (fun e => 10 ^ e % q.den == 0)).isSome := by
    rw [List.find?_isSome]
    refine ⟨q.den, by simp, ?_⟩
    simp [Nat.mod_eq_zero_of_dvd h]
  obtain ⟨e, he⟩ := Option.isSome_iff_exists.mp hsome
  rw [he]
  have hpe := List.find?_some he
  simp only [beq_iff_eq] at hpe
  simpa using Nat.dvd_of_mod_eq_zero hpe

theorem takeWhile_append_stop {p : Char → Bool} {xs ys : List Char} {y : Char}
    (hxs : ∀ c ∈ xs, p c = true) (hy : p y = false) :
    (xs ++ y :: ys).takeWhile p = xs ∧ (xs ++ y :: ys).dropWhile p = y :: ys := by
  induction xs with
  | nil => simp [List.takeWhile_cons, List.dropWhile_cons, hy]
  | cons x xs ih =>
    have hx := hxs x (by simp)
    have ih' := ih (fun c hc => hxs c (by simp [hc]))
    simp [List.takeWhile_cons, List.dropWhile_cons, hx, ih'.1, ih'.2]

theorem renderNat_ne_dot {i : ℕ} : ∀ c ∈ renderNat i, c ≠ '.' := by
  intro c hc hdot
  have := renderNat_digits i c hc
  subst hdot
  simp at this

theorem parseMoney_concat (i f e : ℕ) (he : 1 ≤ e) (hf : f < 10 ^ e) :
    parseMoney (renderNat i ++ '.' :: renderNatPad e f) =
      some ((i : ℚ) + (f : ℚ) / 10 ^ e) := by
  have hxs : ∀ c ∈ renderNat i, (fun c => decide (c ≠ '.')) c = true :=
    fun c hc => decide_eq_true (renderNat_ne_dot c hc)
  have hy : (fun c => decide (c ≠ '.')) '.' = false := by decide
  have hsplit := @takeWhile_append_stop (fun c => decide (c ≠ '.'))
    (renderNat i) (renderNatPad e f) '.' hxs hy
  rw [parseMoney, hsplit.2]
  simp only [hsplit.1, parseNat?_renderNat, parseNat?_renderNatPad,
    renderNatPad_length he hf]

theorem parseMoney_renderMoney {q : ℚ} (h0 : 0 ≤ q)
    (hden : (q.den : ℕ) ∣ 10 ^ q.den) :
    parseMoney (renderMoney q) = some q := by
  have he1 : 1 ≤ max (decExp q) 1 := le_max_right _ _
  have hdvd : (q.den : ℕ) ∣ 10 ^ max (decExp q) 1 :=
    dvd_trans (decExp_spec hden) (pow_dvd_pow 10 (le_max_left _ _))
  have hpow : 0 < 10 ^ max (decExp q) 1 := Nat.pow_pos (by omega)
  have hrm : renderMoney q =
      renderNat (q.num.toNat * (10 ^ max (decExp q) 1 / q.den) /
          10 ^ max (decExp q) 1) ++
        '.' :: renderNatPad (max (decExp q) 1)
          (q.num.toNat * (10 ^ max (decExp q) 1 / q.den) %
            10 ^ max (decExp q) 1) := rfl
  rw [hrm, parseMoney_concat _ _ _ he1 (Nat.mod_lt _ hpow)]
  congr 1
  -- it remains to see that the two digit blocks reassemble to `q`
  have hkey : ((q.num.toNat * (10 ^ max (decExp q) 1 / q.den) : ℕ) : ℚ) =
      q * 10 ^ max (decExp q) 1 := by
    have hnum : ((q.num.toNat : ℕ) : ℚ) = (q.num : ℚ) := by
      exact_mod_cast congrArg (fun z : ℤ => (z : ℚ))
        (Int.toNat_of_nonneg (Rat.num_nonneg.mpr h0))
    have hcast : ((10 ^ max (decExp q) 1 / q.den : ℕ) : ℚ) =
        (10 ^ max (decExp q) 1 : ℚ) / (q.den : ℚ) := by
      rw [Nat.cast_div hdvd (by exact_mod_cast q.den_nz)]
      push_cast
      ring
    have hd0 : ((q.den : ℕ) : ℚ) ≠ 0 := by exact_mod_cast q.den_nz
    have hq : ((q.num : ℤ) : ℚ) = q * ((q.den : ℕ) : ℚ) :=
      (div_eq_iff hd0).mp (Rat.num_div_den q)
    push_cast
    rw [hnum, hcast]
    field_simp
    linear_combination (10 ^ (max (decExp q) 1) : ℚ) * hq
  generalize hN : q.num.toNat * (10 ^ max (decExp q) 1 / q.den) = n at hkey
  generalize hE : max (decExp q) 1 = e at hkey hpow
  have hdm : 10 ^ e * (n / 10 ^ e) + n % 10 ^ e = n := Nat.div_add_mod n (10 ^ e)
  have hcast2 : ((10 ^ e * (n / 10 ^ e) + n % 10 ^ e : ℕ) : ℚ) = (n : ℚ) := by
    exact_mod_cast congrArg (fun m : ℕ => (m : ℚ)) hdm
  push_cast at hcast2
  have h10 : ((10 : ℚ)) ^ e ≠ 0 := by positivity
  field_simp
  linarith [hkey, hcast2]

theorem intercalate_three {α : Type} (s a b c : List α) :
    List.intercalate s [a, b, c] = a ++ s ++ (b ++ s ++ c) := by
  simp [List.intercalate, List.intersperse]

theorem intercalate_four {α : Type} (s a b c d : List α) :
    List.intercalate s [a, b, c, d] = a ++ s ++ (b ++ s ++ (c ++ s ++ d)) := by
  simp [List.intercalate, List.intersperse]

theorem renderNatPad_char_bounds {e n : ℕ} {c : Char} (h : c ∈ renderNatPad e n) :
    45 ≤ c.toNat ∧ c.toNat ≤ 57 := by
  have := renderNatPad_digits e n c h
  omega

theorem renderDate_chars (d : DateYMD) :
    ∀ c ∈ renderDate d, 45 ≤ c.toNat ∧ c.toNat ≤ 57 := by
  intro c hc
  rw [renderDate, intercalate_three] at hc
  simp only [List.mem_append, List.mem_singleton] at hc
  rcases hc with (h | h) | (h | h) | h
  · exact renderNatPad_char_bounds h
  · subst h; decide
  · exact renderNatPad_char_bounds h
  · subst h; decide
  · exact renderNatPad_char_bounds h

theorem renderMoney_chars (q : ℚ) :
    ∀ c ∈ renderMoney q, 46 ≤ c.toNat ∧ c.toNat ≤ 57 := by
  intro c hc
  rw [renderMoney] at hc
  simp only [List.mem_append, List.mem_cons] at hc
  rcases hc with h | h | h
  · have := renderNat_digits _ c h
    omega
  · subst h; decide
  · have := renderNatPad_digits _ _ c h
    omega

theorem parseDate_renderDate (d : DateYMD) : parseDate (renderDate d) = some d := by
  have hx : ∀ l ∈ [renderNatPad 4 d.year, renderNatPad 2 d.month,
      renderNatPad 2 d.day], '-' ∉ l := by
    intro l hl hm
    simp only [List.mem_cons, List.not_mem_nil, or_false] at hl
    rcases hl with rfl | rfl | rfl
    · have := renderNatPad_digits 4 d.year _ hm
      simp at this
    · have := renderNatPad_digits 2 d.month _ hm
      simp at this
    · have := renderNatPad_digits 2 d.day _ hm
      simp at this
  rw [parseDate, renderDate, List.splitOn_intercalate _ '-' hx (by simp)]
  simp only [parseNat?_renderNatPad]

theorem cellsToPos_posToCells {p : Position} (hv : ValidPos p) :
    cellsToPos (posToCells p) = some p := by
  obtain ⟨-, -, hp0, hpd, ha0, had⟩ := hv
  rw [posToCells, cellsToPos]
  rw [parseDate_renderDate, parseMoney_renderMoney hp0 hpd,
    parseMoney_renderMoney ha0 had]

theorem comma_not_mem_cells {p : Position} (hv : ValidPos p) :
    ∀ l ∈ posToCells p, ',' ∉ l := by
  obtain ⟨-, htc, -, -, -, -⟩ := hv
  intro l hl hm
  simp only [posToCells, List.mem_cons, List.not_mem_nil, or_false] at hl
  rcases hl with rfl | rfl | rfl | rfl
  · exact (htc ',' hm).1 rfl
  · have := renderDate_chars p.invest_date ',' hm
    simp at this
  · have := renderMoney_chars p.price ',' hm
    simp at this
  · have := renderMoney_chars p.amount ',' hm
    simp at this

theorem parseLine_of_pos {p : Position} (hv : ValidPos p) :
    cellsToPos ((List.intercalate [','] (posToCells p)).splitOn ',') = some p := by
  rw [List.splitOn_intercalate _ ',' (comma_not_mem_cells hv) (by simp [posToCells]),
    cellsToPos_posToCells hv]

theorem newline_not_mem_line {p : Position} (hv : ValidPos p) :
    '\n' ∉ List.intercalate [','] (posToCells p) := by
  intro hm
  rw [posToCells, intercalate_four] at hm
  have hmoney : ∀ q : ℚ, ('\n' : Char) ∉ renderMoney q := by
    intro q hq
    have := renderMoney_chars q _ hq
    simp at this
  have hdate : ('\n' : Char) ∉ renderDate p.invest_date := by
    intro hq
    have := renderDate_chars p.invest_date _ hq
    simp at this
  obtain ⟨-, htc, -, -, -, -⟩ := hv
  simp only [List.mem_append, List.mem_singleton] at hm
  rcases hm with (h | h) | (h | h) | (h | h) | h
  · exact (htc _ h).2.1 rfl
  · simp at h
  · exact hdate h
  · simp at h
  · exact hmoney _ h
  · simp at h
  · exact hmoney _ h

theorem newline_not_mem_headerLine : '\n' ∉ headerLine := by decide

/-- The CSV export/import round-trip, in helper form. -/
theorem csv_round_trip (df : List Position) (hv : ∀ p ∈ df, ValidPos p) :
    read_csv (df_to_csv_bytes df) = some df := by
  have hlines : ∀ l ∈ headerLine ::
      df.map (fun p => List.intercalate [','] (posToCells p)), '\n' ∉ l := by
    intro l hl
    simp only [List.mem_cons, List.mem_map] at hl
    rcases hl with rfl | ⟨p, hp, rfl⟩
    · exact newline_not_mem_headerLine
    · exact newline_not_mem_line (hv p hp)
  rw [df_to_csv_bytes, read_csv,
    List.splitOn_intercalate _ '\n' hlines (by simp)]
  dsimp only
  rw [if_pos rfl]
  clear hlines
  induction df with
  | nil => rfl
  | cons p rest ih =>
    have hvp := hv p (by simp)
    have ih' := ih (fun x hx => hv x (by simp [hx]))
    simp only [List.map_cons, List.mapM_cons, parseLine_of_pos hvp, ih']
    rfl

/-- C8.  Exporting any set of positions with no invalid rows through the
canonical CSV schema (`df_to_csv_bytes`) and re-importing it
(`pd.read_csv` with the Export/Import page's column check) yields the
identical set of positions, field for field. -/
theorem C8_csv_round_trip (df : List Position) (hv : ∀ p ∈ df, ValidPos p) :
    read_csv (df_to_csv_bytes df) = some df :=
  csv_round_trip df hv

/-- C9.  `fetch_history` signals unavailable data with the explicit
`None` sentinel — when the provider call raised, returned no data, or
returned an empty frame or one without a close column — and never by
raising (it is a total function into `Option`) and never with an empty
sequence: whenever it returns a history, that history's date rows are
the frame's non-empty index and it carries the frame's close column. -/
theorem C9_fetch_history_sentinel (r : ProviderResponse) :
    fetch_history ProviderResponse.exn = none ∧
    fetch_history ProviderResponse.noData = none ∧
    (∀ h, fetch_history r = some h →
      h.1 ≠ [] ∧ ∃ f, r = ProviderResponse.frame f ∧
        h.1 = f.index ∧ lookupCol f "close".toList = some h.2) := by
  refine ⟨rfl, rfl, ?_⟩
  intro h hr
  cases r with
  | exn => simp [fetch_history] at hr
  | noData => simp [fetch_history] at hr
  | frame f =>
    rw [fetch_history] at hr
    split at hr
    · exact absurd hr (by simp)
    · next hemp =>
      split at hr
      · exact absurd hr (by simp)
      · next cs hcs =>
        obtain rfl : (f.index, cs) = h := Option.some_injective _ hr
        refine ⟨?_, f, rfl, rfl, hcs⟩
        simpa [List.isEmpty_iff] using hemp

/-- C9 witness: a one-row frame with a `Close` column. -/
theorem C9_witness :
    ((([1], [50]) : List ℕ × List ℚ).1 ≠ [] ∧
      ∃ f, ProviderResponse.frame ⟨[1], [("Close".toList, [50])]⟩ =
          ProviderResponse.frame f ∧
        (([1], [50]) : List ℕ × List ℚ).1 = f.index ∧
        lookupCol f "close".toList = some (([1], [50]) : List ℕ × List ℚ).2) :=
  (C9_fetch_history_sentinel (ProviderResponse.frame ⟨[1], [("Close".toList, [50])]⟩)).2.2
    ([1], [50]) (by decide)

/-- C10.  Removing a position deletes exactly the selected row: for
every portfolio table (of valid rows) and every valid row index, the
table persisted by `local_save_portfolio` (as re-read by
`local_load_portfolio`) equals the original with only that row removed;
every other row is unchanged and relative order is preserved (rows
before the index keep their position, rows after it shift down by
one). -/
theorem C10_remove_row (df : List Position) (idx : ℕ)
    (hidx : idx < df.length) (hv : ∀ p ∈ df, ValidPos p) :
    local_load_portfolio (local_save_portfolio (drop_row df idx)) =
      drop_row df idx ∧
    (drop_row df idx).length + 1 = df.length ∧
    (∀ j, j < idx → (drop_row df idx)[j]? = df[j]?) ∧
    (∀ j, idx ≤ j → (drop_row df idx)[j]? = df[j + 1]?) := by
  have hsub : ∀ p ∈ drop_row df idx, ValidPos p := by
    intro p hp
    rcases List.mem_append.mp hp with h | h
    · exact hv p (List.take_subset _ _ h)
    · exact hv p (List.drop_subset _ _ h)
  have htl : (df.take idx).length = idx := by
    rw [List.length_take]
    omega
  refine ⟨?_, ?_, ?_, ?_⟩
  · rw [local_save_portfolio, local_load_portfolio, csv_round_trip _ hsub]
    rfl
  · rw [drop_row, List.length_append, htl, List.length_drop]
    omega
  · intro j hj
    rw [drop_row, List.getElem?_append_left (by omega : j < (df.take idx).length),
      List.getElem?_take_of_lt hj]
  · intro j hj
    rw [drop_row, List.getElem?_append_right (by omega : (df.take idx).length ≤ j),
      List.getElem?_drop, htl]
    congr 1
    omega


/-- C8 witness: a one-row portfolio. -/
theorem C8_witness :
    read_csv (df_to_csv_bytes
      [⟨"AAPL".toList, ⟨2024, 1, 2⟩, 100, 1000⟩]) =
      some [⟨"AAPL".toList, ⟨2024, 1, 2⟩, 100, 1000⟩] :=
  C8_csv_round_trip [⟨"AAPL".toList, ⟨2024, 1, 2⟩, 100, 1000⟩]
    (by intro p hp; simp only [List.mem_singleton] at hp; subst hp; decide)

/-- C10 witness: removing row 0 of a two-row portfolio. -/
theorem C10_witness :
    (local_load_portfolio (local_save_portfolio
        (drop_row [⟨"AAPL".toList, ⟨2024, 1, 2⟩, 100, 1000⟩,
          ⟨"NVDA".toList, ⟨2024, 3, 4⟩, 50, 500⟩] 0)) =
      drop_row [⟨"AAPL".toList, ⟨2024, 1, 2⟩, 100, 1000⟩,
        ⟨"NVDA".toList, ⟨2024, 3, 4⟩, 50, 500⟩] 0) ∧
    ((drop_row [⟨"AAPL".toList, ⟨2024, 1, 2⟩, 100, 1000⟩,
        ⟨"NVDA".toList, ⟨2024, 3, 4⟩, 50, 500⟩] 0).length + 1 =
      ([⟨"AAPL".toList, ⟨2024, 1, 2⟩, 100, 1000⟩,
        ⟨"NVDA".toList, ⟨2024, 3, 4⟩, 50, 500⟩] :
          List Position).length) ∧
    (∀ j, j < 0 →
      (drop_row [⟨"AAPL".toList, ⟨2024, 1, 2⟩, 100, 1000⟩,
        ⟨"NVDA".toList, ⟨2024, 3, 4⟩, 50, 500⟩] 0)[j]? =
      ([⟨"AAPL".toList, ⟨2024, 1, 2⟩, 100, 1000⟩,
        ⟨"NVDA".toList, ⟨2024, 3, 4⟩, 50, 500⟩] : List Position)[j]?) ∧
    (∀ j, 0 ≤ j →
      (drop_row [⟨"AAPL".toList, ⟨2024, 1, 2⟩, 100, 1000⟩,
        ⟨"NVDA".toList, ⟨2024, 3, 4⟩, 50, 500⟩] 0)[j]? =
      ([⟨"AAPL".toList, ⟨2024, 1, 2⟩, 100, 1000⟩,
        ⟨"NVDA".toList, ⟨2024, 3, 4⟩, 50, 500⟩] : List Position)[j + 1]?) :=
  C10_remove_row
    [⟨"AAPL".toList, ⟨2024, 1, 2⟩, 100, 1000⟩,
      ⟨"NVDA".toList, ⟨2024, 3, 4⟩, 50, 500⟩] 0 (by norm_num)
    (by intro p hp
        simp only [List.mem_cons, List.not_mem_nil, or_false] at hp
        rcases hp with rfl | rfl <;> decide)

end ComradeStocks
